import Mathlib

/-!
Verification of the algorithmic core of the Weekly Target Planner
(`src/app.py`): the data-repair normalization pass `clean_and_validate_data`
and the proportional allocator `calculate_smart_recommendations`.

Numeric values are modelled as rationals; Python's `round(x, n)`
(round-half-to-even at `n` decimal digits) is modelled exactly by
`roundTo n`.  A pandas DataFrame is modelled by `DFrame`: three flags
recording whether the `Tonnage`, `Yield` and `Revenue` columns are present,
plus the ordered list of rows.  Each `Row` carries the three metric values
and an opaque `id` standing for all the per-row data these functions never
touch (week, agent name, positional identity).
-/

/-- Round-half-to-even of a rational to an integer, as Python's `round`. -/
def rnearest (q : ℚ) : ℤ :=
  if q - ⌊q⌋ < 1/2 then ⌊q⌋
  else if 1/2 < q - ⌊q⌋ then ⌊q⌋ + 1
  else if ⌊q⌋ % 2 = 0 then ⌊q⌋ else ⌊q⌋ + 1

/-- Python's `round(q, n)`: round half to even at `n` decimal digits. -/
def roundTo (n : ℕ) (q : ℚ) : ℚ := (rnearest (q * 10 ^ n) : ℚ) / 10 ^ n

theorem rnearest_intCast (k : ℤ) : rnearest (k : ℚ) = k := by
  unfold rnearest
  rw [Int.floor_intCast]
  norm_num

theorem abs_rnearest_sub (q : ℚ) : |(rnearest q : ℚ) - q| ≤ 1/2 := by
  have h0 : (⌊q⌋ : ℚ) ≤ q := Int.floor_le q
  have h1 : q < ⌊q⌋ + 1 := Int.lt_floor_add_one q
  unfold rnearest
  rw [abs_le]
  split_ifs with ha hb hc
  · constructor <;> linarith
  · constructor <;> push_cast <;> linarith
  · constructor <;> linarith
  · push_neg at ha hb
    constructor <;> push_cast <;> linarith

theorem abs_roundTo_sub (n : ℕ) (q : ℚ) : |roundTo n q - q| ≤ 1 / (2 * 10 ^ n) := by
  have hp : (0:ℚ) < 10 ^ n := by positivity
  have h := abs_rnearest_sub (q * 10 ^ n)
  have hrw : roundTo n q - q = ((rnearest (q * 10 ^ n) : ℚ) - q * 10 ^ n) / 10 ^ n := by
    unfold roundTo
    field_simp
    ring
  rw [hrw, abs_div, abs_of_pos hp, div_le_div_iff₀ hp (by positivity)]
  calc |(rnearest (q * 10 ^ n) : ℚ) - q * 10 ^ n| * (2 * 10 ^ n)
      ≤ (1/2) * (2 * 10 ^ n) := by
        apply mul_le_mul_of_nonneg_right h
        positivity
    _ = 1 * 10 ^ n := by ring

theorem roundTo_roundTo (n : ℕ) (q : ℚ) : roundTo n (roundTo n q) = roundTo n q := by
  have hp : ((10:ℚ)) ^ n ≠ 0 := by positivity
  unfold roundTo
  rw [div_mul_cancel₀ _ hp, rnearest_intCast]

theorem rnearest_nonneg {q : ℚ} (h : 0 ≤ q) : 0 ≤ rnearest q := by
  have hf : (0:ℤ) ≤ ⌊q⌋ := Int.floor_nonneg.mpr h
  unfold rnearest
  split_ifs <;> omega

theorem roundTo_nonneg {n : ℕ} {q : ℚ} (h : 0 ≤ q) : 0 ≤ roundTo n q := by
  have h1 : 0 ≤ q * 10 ^ n := by positivity
  have h2 := rnearest_nonneg h1
  unfold roundTo
  apply div_nonneg
  · exact_mod_cast h2
  · positivity

/-- One table row: the three metrics plus an opaque id standing for the
per-row data (week, agent, position) that the core functions never modify. -/
structure Row where
  id : ℕ
  t : ℚ
  y : ℚ
  r : ℚ
deriving DecidableEq

/-- A DataFrame: presence flags for the Tonnage, Yield and Revenue columns,
plus the ordered rows.  `pd.DataFrame()` is `emptyDF`. -/
structure DFrame where
  hasT : Bool
  hasY : Bool
  hasR : Bool
  rows : List Row
deriving DecidableEq

/-- The fresh empty frame `pd.DataFrame()`: no columns, no rows. -/
def emptyDF : DFrame := ⟨false, false, false, []⟩

/-- All three required columns are present. -/
def hasCols (df : DFrame) : Bool := df.hasT && df.hasY && df.hasR

/-- Per-row body of `clean_and_validate_data` (src/app.py lines 233-254):
coerce and clamp to nonnegative, zero the whole row if tonnage or yield is
zero, otherwise round tonnage to an integer, yield to 2 decimals, and
recompute revenue as `round(tonnage * yield, 2)` from the clamped,
pre-rounding values (exactly as the Python locals hold them). -/
def normRow (x : Row) : Row :=
  if max 0 x.t = 0 ∨ max 0 x.y = 0 then ⟨x.id, 0, 0, 0⟩
  else ⟨x.id, roundTo 0 (max 0 x.t), roundTo 2 (max 0 x.y),
        roundTo 2 (max 0 x.t * max 0 x.y)⟩

/-- `clean_and_validate_data` (src/app.py lines 216-266): empty input gives
a fresh empty frame, a missing required column returns the input unchanged,
otherwise every row is normalized in place. -/
def clean (df : DFrame) : DFrame :=
  if df.rows = [] then emptyDF
  else if hasCols df = false then df
  else ⟨df.hasT, df.hasY, df.hasR, df.rows.map normRow⟩

/-- A row is valid when all three metrics are strictly positive
(src/app.py lines 289-293). -/
def validB (x : Row) : Bool := decide (0 < x.t ∧ 0 < x.y ∧ 0 < x.r)

/-- Combined distribution weight of a row given the valid totals
(src/app.py lines 314-316). -/
def combinedWeight (St Sr : ℚ) (x : Row) : ℚ := (x.t / St + x.r / Sr) / 2

/-- Per-row body of the allocator's distribution loop
(src/app.py lines 319-350): a valid row receives its weighted share of the
tonnage and revenue targets and a back-computed yield; an invalid row is
zeroed. -/
def allocRow (St Sr Tt Tr Ty : ℚ) (x : Row) : Row :=
  if validB x then
    ⟨x.id, Tt * combinedWeight St Sr x,
      (if 0 < Tt * combinedWeight St Sr x then
        (Tr * combinedWeight St Sr x) / (Tt * combinedWeight St Sr x)
      else Ty),
      Tr * combinedWeight St Sr x⟩
  else ⟨x.id, 0, 0, 0⟩

/-- `calculate_smart_recommendations` (src/app.py lines 268-358):
empty input gives a fresh empty frame; a nonpositive target or a missing
column returns the input (as a copy); with no valid rows every row gets the
equal split and the result is cleaned; with degenerate valid totals the
input is returned; otherwise targets are distributed by combined weight and
the result is cleaned. -/
def allocate (df : DFrame) (Tt Tr Ty : ℚ) : DFrame :=
  if df.rows = [] then emptyDF
  else if Tt ≤ 0 ∨ Tr ≤ 0 ∨ Ty ≤ 0 then df
  else if hasCols df = false then df
  else if df.rows.filter validB = [] then
    clean ⟨df.hasT, df.hasY, df.hasR,
      df.rows.map (fun x => ⟨x.id, Tt / (df.rows.length : ℚ), Ty,
        Tr / (df.rows.length : ℚ)⟩)⟩
  else if ((df.rows.filter validB).map Row.t).sum = 0 ∨
          ((df.rows.filter validB).map Row.r).sum = 0 then df
  else
    clean ⟨df.hasT, df.hasY, df.hasR,
      df.rows.map (allocRow ((df.rows.filter validB).map Row.t).sum
        ((df.rows.filter validB).map Row.r).sum Tt Tr Ty)⟩

/-- The spec's post-normalize row invariant: revenue is the rounded product
of the rounded tonnage and rounded yield, or the row is all zero. -/
def specInvariant (x : Row) : Prop :=
  x.r = roundTo 2 (roundTo 0 x.t * roundTo 2 x.y) ∨
  (x.t = 0 ∧ x.y = 0 ∧ x.r = 0)

theorem validB_iff (x : Row) : validB x = true ↔ 0 < x.t ∧ 0 < x.y ∧ 0 < x.r := by
  simp [validB]

theorem normRow_id (x : Row) : (normRow x).id = x.id := by
  unfold normRow
  split_ifs <;> rfl

theorem allocRow_id (St Sr Tt Tr Ty : ℚ) (x : Row) :
    (allocRow St Sr Tt Tr Ty x).id = x.id := by
  unfold allocRow
  split_ifs <;> rfl

theorem normRow_zeroRow (i : ℕ) : normRow ⟨i, 0, 0, 0⟩ = ⟨i, 0, 0, 0⟩ := by
  simp [normRow]

theorem allocRow_invalid (St Sr Tt Tr Ty : ℚ) (x : Row) (hx : validB x = false) :
    allocRow St Sr Tt Tr Ty x = ⟨x.id, 0, 0, 0⟩ := by
  simp [allocRow, hx]

theorem map_eq_of_mem {α β : Type} {l : List α} {f g : α → β}
    (h : ∀ x ∈ l, f x = g x) : l.map f = l.map g := by
  induction l with
  | nil => rfl
  | cons a l ih =>
    simp only [List.map_cons]
    rw [h a (by simp), ih (fun x hx => h x (by simp [hx]))]

theorem sum_map_add_q (l : List Row) (f g : Row → ℚ) :
    (l.map (fun x => f x + g x)).sum = (l.map f).sum + (l.map g).sum := by
  induction l with
  | nil => simp
  | cons a l ih => simp only [List.map_cons, List.sum_cons, ih]; ring

theorem sum_map_div_q (l : List Row) (f : Row → ℚ) (c : ℚ) :
    (l.map (fun x => f x / c)).sum = (l.map f).sum / c := by
  induction l with
  | nil => simp
  | cons a l ih => simp only [List.map_cons, List.sum_cons, ih, add_div]

theorem sum_map_mul_q (l : List Row) (f : Row → ℚ) (c : ℚ) :
    (l.map (fun x => c * f x)).sum = c * (l.map f).sum := by
  induction l with
  | nil => simp
  | cons a l ih => simp only [List.map_cons, List.sum_cons, ih, mul_add]

theorem sum_map_nonneg_q (l : List Row) (f : Row → ℚ) (h : ∀ x ∈ l, 0 ≤ f x) :
    0 ≤ (l.map f).sum := by
  induction l with
  | nil => simp
  | cons a l ih =>
    simp only [List.map_cons, List.sum_cons]
    have := h a (by simp)
    have := ih (fun x hx => h x (by simp [hx]))
    linarith

theorem sum_map_pos_q (l : List Row) (f : Row → ℚ) (hne : l ≠ [])
    (h : ∀ x ∈ l, 0 < f x) : 0 < (l.map f).sum := by
  cases l with
  | nil => exact absurd rfl hne
  | cons a l =>
    simp only [List.map_cons, List.sum_cons]
    have ha := h a (by simp)
    have hl := sum_map_nonneg_q l f (fun x hx => (h x (by simp [hx])).le)
    linarith

theorem sum_sub_bound (l : List Row) (f g : Row → ℚ) (c : ℚ)
    (h : ∀ x ∈ l, |f x - g x| ≤ c) :
    |(l.map f).sum - (l.map g).sum| ≤ (l.length : ℚ) * c := by
  induction l with
  | nil => simp
  | cons a l ih =>
    have ha := h a (by simp)
    have ih' := ih (fun x hx => h x (by simp [hx]))
    have key : ((a :: l).map f).sum - ((a :: l).map g).sum
        = (f a - g a) + ((l.map f).sum - (l.map g).sum) := by
      simp only [List.map_cons, List.sum_cons]; ring
    rw [key]
    have habs := abs_add (f a - g a) ((l.map f).sum - (l.map g).sum)
    have hlen : ((a :: l).length : ℚ) = (l.length : ℚ) + 1 := by
      simp only [List.length_cons]; push_cast; ring
    rw [hlen]
    nlinarith [abs_nonneg (f a - g a)]

theorem sum_map_filter_eq (l : List Row) (f : Row → ℚ)
    (h0 : ∀ x ∈ l, validB x = false → f x = 0) :
    (l.map f).sum = ((l.filter validB).map f).sum := by
  induction l with
  | nil => simp
  | cons a l ih =>
    have ih' := ih (fun x hx hv => h0 x (by simp [hx]) hv)
    by_cases hb : validB a
    · simp only [List.filter_cons, hb, if_pos, List.map_cons, List.sum_cons, ih']
    · have hb' : validB a = false := by simpa using hb
      simp only [List.filter_cons, hb', List.map_cons, List.sum_cons,
        h0 a (by simp) hb', ih', Bool.false_eq_true, if_false, zero_add]

theorem valid_sums_pos (df : DFrame) (hv : df.rows.filter validB ≠ []) :
    0 < ((df.rows.filter validB).map Row.t).sum ∧
    0 < ((df.rows.filter validB).map Row.r).sum := by
  constructor
  · apply sum_map_pos_q _ _ hv
    intro x hx
    exact ((validB_iff x).mp (List.mem_filter.mp hx).2).1
  · apply sum_map_pos_q _ _ hv
    intro x hx
    exact ((validB_iff x).mp (List.mem_filter.mp hx).2).2.2

theorem weight_sum (l : List Row) (St Sr : ℚ) (hSt : St ≠ 0) (hSr : Sr ≠ 0)
    (h1 : (l.map Row.t).sum = St) (h2 : (l.map Row.r).sum = Sr) :
    (l.map (combinedWeight St Sr)).sum = 1 := by
  unfold combinedWeight
  rw [show (fun x => (x.t / St + x.r / Sr) / 2)
      = (fun x => (Row.t x / St + Row.r x / Sr) / 2) from rfl]
  rw [sum_map_div_q l (fun x => Row.t x / St + Row.r x / Sr) 2,
    sum_map_add_q l (fun x => Row.t x / St) (fun x => Row.r x / Sr),
    sum_map_div_q l Row.t St, sum_map_div_q l Row.r Sr, h1, h2,
    div_self hSt, div_self hSr]
  norm_num

theorem combinedWeight_pos {St Sr : ℚ} (hSt : 0 < St) (hSr : 0 < Sr) {x : Row}
    (hx : validB x = true) : 0 < combinedWeight St Sr x := by
  rcases (validB_iff x).mp hx with ⟨h1, _, h3⟩
  have d1 := div_pos h1 hSt
  have d2 := div_pos h3 hSr
  unfold combinedWeight
  linarith

theorem alloc_norm_valid (St Sr Tt Tr Ty : ℚ) (hSt : 0 < St) (hSr : 0 < Sr)
    (ht : 0 < Tt) (hr : 0 < Tr) (x : Row) (hx : validB x = true) :
    normRow (allocRow St Sr Tt Tr Ty x)
      = ⟨x.id, roundTo 0 (Tt * combinedWeight St Sr x),
          roundTo 2 (Tr * combinedWeight St Sr x / (Tt * combinedWeight St Sr x)),
          roundTo 2 (Tr * combinedWeight St Sr x)⟩ := by
  have hw := combinedWeight_pos hSt hSr hx
  have hta : 0 < Tt * combinedWeight St Sr x := mul_pos ht hw
  have hra : 0 < Tr * combinedWeight St Sr x := mul_pos hr hw
  have hya : 0 < Tr * combinedWeight St Sr x / (Tt * combinedWeight St Sr x) :=
    div_pos hra hta
  rw [allocRow, if_pos hx, if_pos hta]
  unfold normRow
  simp only [max_eq_right hta.le, max_eq_right hya.le]
  rw [if_neg (by push_neg; exact ⟨hta.ne', hya.ne'⟩)]
  have hprod : Tt * combinedWeight St Sr x *
      (Tr * combinedWeight St Sr x / (Tt * combinedWeight St Sr x))
      = Tr * combinedWeight St Sr x := by
    field_simp
  rw [hprod]

theorem alloc_norm_invalid (St Sr Tt Tr Ty : ℚ) (x : Row) (hx : validB x = false) :
    normRow (allocRow St Sr Tt Tr Ty x) = ⟨x.id, 0, 0, 0⟩ := by
  rw [allocRow_invalid St Sr Tt Tr Ty x hx, normRow_zeroRow]

theorem clean_main (df : DFrame) (hc : hasCols df = true) (hne : df.rows ≠ []) :
    clean df = ⟨df.hasT, df.hasY, df.hasR, df.rows.map normRow⟩ := by
  unfold clean
  rw [if_neg hne, if_neg (by simp [hc])]

theorem allocate_main (df : DFrame) (Tt Tr Ty : ℚ) (hc : hasCols df = true)
    (hv : df.rows.filter validB ≠ []) (ht : 0 < Tt) (hr : 0 < Tr) (hy : 0 < Ty) :
    (allocate df Tt Tr Ty).rows
      = df.rows.map (fun x =>
          normRow (allocRow ((df.rows.filter validB).map Row.t).sum
            ((df.rows.filter validB).map Row.r).sum Tt Tr Ty x)) := by
  have hne : df.rows ≠ [] := by
    intro h
    exact hv (by simp [h])
  obtain ⟨hSt, hSr⟩ := valid_sums_pos df hv
  have halloc : allocate df Tt Tr Ty
      = clean ⟨df.hasT, df.hasY, df.hasR,
          df.rows.map (allocRow ((df.rows.filter validB).map Row.t).sum
            ((df.rows.filter validB).map Row.r).sum Tt Tr Ty)⟩ := by
    unfold allocate
    rw [if_neg hne, if_neg (by push_neg; exact ⟨ht, hr, hy⟩),
      if_neg (by simp [hc]), if_neg hv,
      if_neg (by push_neg; exact ⟨hSt.ne', hSr.ne'⟩)]
  have hFne : (df.rows.map (allocRow ((df.rows.filter validB).map Row.t).sum
      ((df.rows.filter validB).map Row.r).sum Tt Tr Ty)) ≠ [] := by
    cases h : df.rows with
    | nil => exact absurd h hne
    | cons a l => simp [h]
  rw [halloc, clean_main ⟨df.hasT, df.hasY, df.hasR,
    df.rows.map (allocRow ((df.rows.filter validB).map Row.t).sum
      ((df.rows.filter validB).map Row.r).sum Tt Tr Ty)⟩ hc hFne]
  simp [List.map_map, Function.comp]

/-- Claim C2: for every table with at least one valid row and strictly
positive targets, the allocated table's total tonnage is within half a unit
per valid row of the tonnage target, and its total revenue within half a
cent per valid row of the revenue target: exactly the tolerance introduced
by the Normalizer rounding tonnage to an integer and revenue to 2 decimals. -/
theorem c2_conservation (df : DFrame) (Tt Tr Ty : ℚ)
    (hc : hasCols df = true) (hv : df.rows.filter validB ≠ [])
    (ht : 0 < Tt) (hr : 0 < Tr) (hy : 0 < Ty) :
    |((allocate df Tt Tr Ty).rows.map Row.t).sum - Tt|
      ≤ ((df.rows.filter validB).length : ℚ) * (1/2) ∧
    |((allocate df Tt Tr Ty).rows.map Row.r).sum - Tr|
      ≤ ((df.rows.filter validB).length : ℚ) * (1/200) := by
  obtain ⟨hSt, hSr⟩ := valid_sums_pos df hv
  have hrows := allocate_main df Tt Tr Ty hc hv ht hr hy
  have hzt : ∀ x ∈ df.rows, validB x = false →
      (Row.t ∘ fun x => normRow (allocRow ((df.rows.filter validB).map Row.t).sum
        ((df.rows.filter validB).map Row.r).sum Tt Tr Ty x)) x = 0 := by
    intro x _ hx
    simp [Function.comp, alloc_norm_invalid _ _ _ _ _ x hx]
  have hzr : ∀ x ∈ df.rows, validB x = false →
      (Row.r ∘ fun x => normRow (allocRow ((df.rows.filter validB).map Row.t).sum
        ((df.rows.filter validB).map Row.r).sum Tt Tr Ty x)) x = 0 := by
    intro x _ hx
    simp [Function.comp, alloc_norm_invalid _ _ _ _ _ x hx]
  have hW : ((df.rows.filter validB).map
      (combinedWeight ((df.rows.filter validB).map Row.t).sum
        ((df.rows.filter validB).map Row.r).sum)).sum = 1 :=
    weight_sum _ _ _ hSt.ne' hSr.ne' rfl rfl
  have hGsumT : ((df.rows.filter validB).map
      (fun x => Tt * combinedWeight ((df.rows.filter validB).map Row.t).sum
        ((df.rows.filter validB).map Row.r).sum x)).sum = Tt := by
    rw [sum_map_mul_q, hW, mul_one]
  have hGsumR : ((df.rows.filter validB).map
      (fun x => Tr * combinedWeight ((df.rows.filter validB).map Row.t).sum
        ((df.rows.filter validB).map Row.r).sum x)).sum = Tr := by
    rw [sum_map_mul_q, hW, mul_one]
  constructor
  · rw [hrows, List.map_map,
      sum_map_filter_eq df.rows _ hzt,
      map_eq_of_mem (fun x hx => by
        have hvx := (List.mem_filter.mp hx).2
        simp only [Function.comp]
        rw [alloc_norm_valid _ _ Tt Tr Ty hSt hSr ht hr x hvx])]
    calc |((df.rows.filter validB).map
          (fun x => roundTo 0 (Tt * combinedWeight ((df.rows.filter validB).map Row.t).sum
            ((df.rows.filter validB).map Row.r).sum x))).sum - Tt|
        = |((df.rows.filter validB).map
            (fun x => roundTo 0 (Tt * combinedWeight ((df.rows.filter validB).map Row.t).sum
              ((df.rows.filter validB).map Row.r).sum x))).sum
          - ((df.rows.filter validB).map
            (fun x => Tt * combinedWeight ((df.rows.filter validB).map Row.t).sum
              ((df.rows.filter validB).map Row.r).sum x)).sum| := by rw [hGsumT]
      _ ≤ ((df.rows.filter validB).length : ℚ) * (1/2) := by
          apply sum_sub_bound
          intro x _
          have h := abs_roundTo_sub 0 (Tt * combinedWeight ((df.rows.filter validB).map Row.t).sum
            ((df.rows.filter validB).map Row.r).sum x)
          norm_num at h
          exact h
  · rw [hrows, List.map_map,
      sum_map_filter_eq df.rows _ hzr,
      map_eq_of_mem (fun x hx => by
        have hvx := (List.mem_filter.mp hx).2
        simp only [Function.comp]
        rw [alloc_norm_valid _ _ Tt Tr Ty hSt hSr ht hr x hvx])]
    calc |((df.rows.filter validB).map
          (fun x => roundTo 2 (Tr * combinedWeight ((df.rows.filter validB).map Row.t).sum
            ((df.rows.filter validB).map Row.r).sum x))).sum - Tr|
        = |((df.rows.filter validB).map
            (fun x => roundTo 2 (Tr * combinedWeight ((df.rows.filter validB).map Row.t).sum
              ((df.rows.filter validB).map Row.r).sum x))).sum
          - ((df.rows.filter validB).map
            (fun x => Tr * combinedWeight ((df.rows.filter validB).map Row.t).sum
              ((df.rows.filter validB).map Row.r).sum x)).sum| := by rw [hGsumR]
      _ ≤ ((df.rows.filter validB).length : ℚ) * (1/200) := by
          apply sum_sub_bound
          intro x _
          have h := abs_roundTo_sub 2 (Tr * combinedWeight ((df.rows.filter validB).map Row.t).sum
            ((df.rows.filter validB).map Row.r).sum x)
          norm_num at h
          exact h

theorem normRow_valid_out {x : Row} (ha : max 0 x.t ≠ 0) (hb : max 0 x.y ≠ 0) :
    normRow x = ⟨x.id, roundTo 0 (max 0 x.t), roundTo 2 (max 0 x.y),
      roundTo 2 (max 0 x.t * max 0 x.y)⟩ := by
  unfold normRow
  rw [if_neg (by push_neg; exact ⟨ha, hb⟩)]

theorem normRow_fixpoint (w : Row) (ht0 : 0 ≤ w.t) (hy0 : 0 ≤ w.y)
    (htf : roundTo 0 w.t = w.t) (hyf : roundTo 2 w.y = w.y)
    (hrf : w.r = roundTo 2 (w.t * w.y)) (hnz : w.t ≠ 0) (hnzy : w.y ≠ 0) :
    normRow w = w := by
  unfold normRow
  rw [max_eq_right ht0, max_eq_right hy0,
    if_neg (by push_neg; exact ⟨hnz, hnzy⟩), htf, hyf, ← hrf]

theorem normRow_normRow_fix (x : Row) :
    normRow (normRow (normRow x)) = normRow (normRow x) := by
  by_cases h : max 0 x.t = 0 ∨ max 0 x.y = 0
  · have h1 : normRow x = ⟨x.id, 0, 0, 0⟩ := by
      unfold normRow
      rw [if_pos h]
    rw [h1, normRow_zeroRow, normRow_zeroRow]
  · push_neg at h
    have h1 := normRow_valid_out h.1 h.2
    have ha0 : 0 ≤ roundTo 0 (max 0 x.t) := roundTo_nonneg (le_max_left 0 x.t)
    have hb0 : 0 ≤ roundTo 2 (max 0 x.y) := roundTo_nonneg (le_max_left 0 x.y)
    by_cases hz : roundTo 0 (max 0 x.t) = 0 ∨ roundTo 2 (max 0 x.y) = 0
    · have h2 : normRow (normRow x) = ⟨x.id, 0, 0, 0⟩ := by
        rw [h1]
        unfold normRow
        rw [if_pos (by
          simp only [max_eq_right ha0, max_eq_right hb0]
          exact hz)]
      rw [h2, normRow_zeroRow]
    · push_neg at hz
      have h2 : normRow (normRow x) = ⟨x.id, roundTo 0 (max 0 x.t),
          roundTo 2 (max 0 x.y),
          roundTo 2 (roundTo 0 (max 0 x.t) * roundTo 2 (max 0 x.y))⟩ := by
        rw [h1]
        unfold normRow
        rw [if_neg (by
          simp only [max_eq_right ha0, max_eq_right hb0]
          push_neg
          exact hz)]
        simp only [max_eq_right ha0, max_eq_right hb0, roundTo_roundTo]
      rw [h2]
      exact normRow_fixpoint _ ha0 hb0 (roundTo_roundTo 0 _) (roundTo_roundTo 2 _)
        rfl hz.1 hz.2

theorem clean_ids (df : DFrame) :
    (clean df).rows.map Row.id = df.rows.map Row.id := by
  unfold clean
  split_ifs with h1 h2
  · rw [h1]
    rfl
  · rfl
  · show (df.rows.map normRow).map Row.id = df.rows.map Row.id
    rw [List.map_map]
    exact map_eq_of_mem (fun x _ => normRow_id x)

theorem allocate_ids (df : DFrame) (Tt Tr Ty : ℚ) :
    (allocate df Tt Tr Ty).rows.map Row.id = df.rows.map Row.id := by
  unfold allocate
  split_ifs with h1 h2 h3 h4 h5
  · rw [h1]
    rfl
  · rfl
  · rfl
  · rw [clean_ids]
    show (df.rows.map _).map Row.id = df.rows.map Row.id
    rw [List.map_map]
    exact map_eq_of_mem (fun x _ => rfl)
  · rfl
  · rw [clean_ids]
    show (df.rows.map _).map Row.id = df.rows.map Row.id
    rw [List.map_map]
    exact map_eq_of_mem (fun x _ => allocRow_id _ _ _ _ _ x)

theorem length_eq_of_map_id {l1 l2 : List Row}
    (h : l1.map Row.id = l2.map Row.id) : l1.length = l2.length := by
  have := congrArg List.length h
  simpa using this

/-- Claim C8: normalize and allocate each return a table with the same
number of rows and the same row order as the input: the list of untouched
per-row identities is preserved exactly, in order. -/
theorem c8_length_order (df : DFrame) (Tt Tr Ty : ℚ) :
    ((clean df).rows.length = df.rows.length ∧
      (clean df).rows.map Row.id = df.rows.map Row.id) ∧
    ((allocate df Tt Tr Ty).rows.length = df.rows.length ∧
      (allocate df Tt Tr Ty).rows.map Row.id = df.rows.map Row.id) :=
  ⟨⟨length_eq_of_map_id (clean_ids df), clean_ids df⟩,
   ⟨length_eq_of_map_id (allocate_ids df Tt Tr Ty), allocate_ids df Tt Tr Ty⟩⟩

/-- Claim C9: with at least one valid row, the sums of tonnage and revenue
over the valid rows are strictly positive, so the allocator's
degenerate-weighting abort branch (sum equal to zero) can never fire. -/
theorem c9_degenerate_unreachable (df : DFrame)
    (hv : df.rows.filter validB ≠ []) :
    0 < ((df.rows.filter validB).map Row.t).sum ∧
    0 < ((df.rows.filter validB).map Row.r).sum ∧
    ¬ (((df.rows.filter validB).map Row.t).sum = 0 ∨
       ((df.rows.filter validB).map Row.r).sum = 0) := by
  obtain ⟨h1, h2⟩ := valid_sums_pos df hv
  exact ⟨h1, h2, by push_neg; exact ⟨h1.ne', h2.ne'⟩⟩

theorem c9_witness :
    0 < (((⟨true, true, true, [⟨0, 1, 1, 1⟩]⟩ : DFrame).rows.filter validB).map Row.t).sum ∧
    0 < (((⟨true, true, true, [⟨0, 1, 1, 1⟩]⟩ : DFrame).rows.filter validB).map Row.r).sum ∧
    ¬ ((((⟨true, true, true, [⟨0, 1, 1, 1⟩]⟩ : DFrame).rows.filter validB).map Row.t).sum = 0 ∨
       (((⟨true, true, true, [⟨0, 1, 1, 1⟩]⟩ : DFrame).rows.filter validB).map Row.r).sum = 0) :=
  c9_degenerate_unreachable ⟨true, true, true, [⟨0, 1, 1, 1⟩]⟩
    (by norm_num [List.filter, validB])

/-- Claim C4: any row whose tonnage or yield is nonpositive before
normalization comes out of normalize as exactly the zero row, whatever the
signs of the other fields. -/
theorem c4_all_or_nothing (df : DFrame) (hc : hasCols df = true) (i : ℕ)
    (x : Row) (hx : df.rows[i]? = some x) (hneg : x.t ≤ 0 ∨ x.y ≤ 0) :
    (clean df).rows[i]? = some ⟨x.id, 0, 0, 0⟩ := by
  have hne : df.rows ≠ [] := by
    intro h
    rw [h] at hx
    simp at hx
  rw [clean_main df hc hne]
  show (df.rows.map normRow)[i]? = some ⟨x.id, 0, 0, 0⟩
  rw [List.getElem?_map, hx]
  have hz : normRow x = ⟨x.id, 0, 0, 0⟩ := by
    unfold normRow
    rcases hneg with h | h
    · rw [if_pos (Or.inl (max_eq_left h))]
    · rw [if_pos (Or.inr (max_eq_left h))]
  simp only [Option.map_some']
  rw [hz]

theorem c4_witness :
    (clean ⟨true, true, true, [⟨7, -5, 3, 4⟩]⟩).rows[0]? = some ⟨7, 0, 0, 0⟩ :=
  c4_all_or_nothing ⟨true, true, true, [⟨7, -5, 3, 4⟩]⟩ rfl 0 ⟨7, -5, 3, 4⟩ rfl
    (by norm_num)

/-- Claim C6: on a nonempty table with no valid rows and strictly positive
targets, the allocator gives every row the equal split
(tonnage target over row count, the target average yield, revenue target
over row count) and then applies the Normalizer to the result. -/
theorem c6_equal_split (df : DFrame) (Tt Tr Ty : ℚ) (hne : df.rows ≠ [])
    (hc : hasCols df = true) (hv : df.rows.filter validB = [])
    (ht : 0 < Tt) (hr : 0 < Tr) (hy : 0 < Ty) :
    allocate df Tt Tr Ty = clean ⟨df.hasT, df.hasY, df.hasR,
      df.rows.map (fun x => ⟨x.id, Tt / (df.rows.length : ℚ), Ty,
        Tr / (df.rows.length : ℚ)⟩)⟩ := by
  unfold allocate
  rw [if_neg hne, if_neg (by push_neg; exact ⟨ht, hr, hy⟩),
    if_neg (by simp [hc]), if_pos hv]

theorem c6_witness :
    allocate ⟨true, true, true, [⟨0, 0, 0, 0⟩, ⟨1, 5, 0, 3⟩]⟩ 1000 5000 5
      = clean ⟨true, true, true,
          ([⟨0, 0, 0, 0⟩, ⟨1, 5, 0, 3⟩] : List Row).map (fun x =>
            ⟨x.id, 1000 / (([⟨0, 0, 0, 0⟩, ⟨1, 5, 0, 3⟩] : List Row).length : ℚ), 5,
              5000 / (([⟨0, 0, 0, 0⟩, ⟨1, 5, 0, 3⟩] : List Row).length : ℚ)⟩)⟩ :=
  c6_equal_split ⟨true, true, true, [⟨0, 0, 0, 0⟩, ⟨1, 5, 0, 3⟩]⟩ 1000 5000 5
    (by simp) rfl (by norm_num [List.filter, validB]) (by norm_num) (by norm_num)
    (by norm_num)

theorem c5_counterexample :
    allocate ⟨true, true, true, ([] : List Row)⟩ 0 100 5
      ≠ ⟨true, true, true, ([] : List Row)⟩ := by
  norm_num [allocate, emptyDF]

/-- Claim C5 (amended): for every table with at least one row, a
nonpositive target makes allocate return the input table unchanged; an
empty table instead yields the fresh empty frame. -/
theorem c5_noop_degenerate_targets (df : DFrame) (Tt Tr Ty : ℚ)
    (hne : df.rows ≠ []) (hdeg : Tt ≤ 0 ∨ Tr ≤ 0 ∨ Ty ≤ 0) :
    allocate df Tt Tr Ty = df := by
  unfold allocate
  rw [if_neg hne, if_pos hdeg]

theorem c5_witness :
    allocate ⟨true, true, true, [⟨0, 1, 1, 1⟩]⟩ 0 100 5
      = ⟨true, true, true, [⟨0, 1, 1, 1⟩]⟩ :=
  c5_noop_degenerate_targets ⟨true, true, true, [⟨0, 1, 1, 1⟩]⟩ 0 100 5
    (by simp) (by norm_num)

theorem c10_counterexample :
    clean ⟨true, true, false, ([] : List Row)⟩
      ≠ ⟨true, true, false, ([] : List Row)⟩ ∧
    allocate ⟨true, true, false, ([] : List Row)⟩ 10 10 10
      ≠ ⟨true, true, false, ([] : List Row)⟩ := by
  constructor
  · norm_num [clean, emptyDF]
  · norm_num [allocate, emptyDF]

/-- Claim C10 (amended): for every nonempty table lacking one of the three
required columns, normalize returns the input unchanged and allocate
returns it unchanged as well, whatever the targets; an empty table instead
yields the fresh empty frame. -/
theorem c10_missing_columns (df : DFrame) (Tt Tr Ty : ℚ)
    (hne : df.rows ≠ []) (hc : hasCols df = false) :
    clean df = df ∧ allocate df Tt Tr Ty = df := by
  constructor
  · unfold clean
    rw [if_neg hne, if_pos hc]
  · unfold allocate
    rw [if_neg hne]
    by_cases hdeg : Tt ≤ 0 ∨ Tr ≤ 0 ∨ Ty ≤ 0
    · rw [if_pos hdeg]
    · rw [if_neg hdeg, if_pos hc]

theorem c10_witness :
    clean ⟨true, true, false, [⟨0, 1, 2, 3⟩]⟩ = ⟨true, true, false, [⟨0, 1, 2, 3⟩]⟩ ∧
    allocate ⟨true, true, false, [⟨0, 1, 2, 3⟩]⟩ 10 10 10
      = ⟨true, true, false, [⟨0, 1, 2, 3⟩]⟩ :=
  c10_missing_columns ⟨true, true, false, [⟨0, 1, 2, 3⟩]⟩ 10 10 10 (by simp) rfl

theorem c2_conservation_witness :
    |((allocate ⟨true, true, true, [⟨0, 100, 2, 200⟩, ⟨1, 300, 3, 900⟩]⟩
        800 2400 3).rows.map Row.t).sum - 800|
      ≤ (((⟨true, true, true, [⟨0, 100, 2, 200⟩, ⟨1, 300, 3, 900⟩]⟩ :
          DFrame).rows.filter validB).length : ℚ) * (1/2) ∧
    |((allocate ⟨true, true, true, [⟨0, 100, 2, 200⟩, ⟨1, 300, 3, 900⟩]⟩
        800 2400 3).rows.map Row.r).sum - 2400|
      ≤ (((⟨true, true, true, [⟨0, 100, 2, 200⟩, ⟨1, 300, 3, 900⟩]⟩ :
          DFrame).rows.filter validB).length : ℚ) * (1/200) :=
  c2_conservation ⟨true, true, true, [⟨0, 100, 2, 200⟩, ⟨1, 300, 3, 900⟩]⟩
    800 2400 3 rfl (by intro h; norm_num [List.filter, validB] at h; exact List.cons_ne_nil _ _ h) (by norm_num)
    (by norm_num) (by norm_num)

/-- Claim C1: the spec's invariant `revenue == round(round(tonnage,0) *
round(yield,2), 2)` fails on the code: on the one-row table with tonnage
10.25, yield 1, revenue 0 the cleaned row is (10, 1, 10.25), because the
code derives revenue from the unrounded tonnage and yield, while the
invariant demands round(10 * 1, 2) = 10. -/
theorem c1_invariant_violated :
    clean ⟨true, true, true, [⟨0, 41/4, 1, 0⟩]⟩
      = ⟨true, true, true, [⟨0, 10, 1, 41/4⟩]⟩ ∧
    ¬ specInvariant ⟨0, 10, 1, 41/4⟩ := by
  constructor
  · norm_num [clean, hasCols, normRow, roundTo, rnearest]
  · norm_num [specInvariant, roundTo, rnearest]

theorem c3_counterexample :
    clean (clean ⟨true, true, true, [⟨0, 1/4, 5, 1⟩]⟩)
      ≠ clean ⟨true, true, true, [⟨0, 1/4, 5, 1⟩]⟩ := by
  norm_num [clean, hasCols, normRow, roundTo, rnearest]

/-- Claim C3 (amended): normalize is not idempotent, but it is idempotent
from the second application on: cleaning a table three times equals
cleaning it twice, for every table. -/
theorem c3_idem_after_two (df : DFrame) :
    clean (clean (clean df)) = clean (clean df) := by
  by_cases h1 : df.rows = []
  · have he : clean df = emptyDF := by
      unfold clean
      rw [if_pos h1]
    have he2 : clean emptyDF = emptyDF := by
      simp [clean, emptyDF]
    rw [he, he2, he2]
  · by_cases h2 : hasCols df = false
    · have hid : clean df = df := by
        unfold clean
        rw [if_neg h1, if_pos h2]
      rw [hid, hid, hid]
    · have hc : hasCols df = true := by
        revert h2
        cases hasCols df <;> simp
      have hstep := clean_main df hc h1
      have hne1 : df.rows.map normRow ≠ [] := by
        cases h : df.rows with
        | nil => exact absurd h h1
        | cons a l => simp [h]
      have hne2 : (df.rows.map normRow).map normRow ≠ [] := by
        cases h : df.rows.map normRow with
        | nil => exact absurd h hne1
        | cons a l => simp [h]
      have hstep2 : clean (clean df)
          = ⟨df.hasT, df.hasY, df.hasR, (df.rows.map normRow).map normRow⟩ := by
        rw [hstep, clean_main ⟨df.hasT, df.hasY, df.hasR, df.rows.map normRow⟩ hc hne1]
      have hstep3 : clean (clean (clean df))
          = ⟨df.hasT, df.hasY, df.hasR,
              ((df.rows.map normRow).map normRow).map normRow⟩ := by
        rw [hstep2,
          clean_main ⟨df.hasT, df.hasY, df.hasR, (df.rows.map normRow).map normRow⟩
            hc hne2]
      rw [hstep3, hstep2]
      simp only [DFrame.mk.injEq, true_and]
      simp only [List.map_map]
      exact map_eq_of_mem (fun x _ => normRow_normRow_fix x)

/-- Claim C7, Scenario A: on the table [(100,2,200),(300,3,900)] with
targets (800, 2400, 3) the valid totals are 400 and 1100, the tonnage
weights are 1/4 and 3/4, the revenue weights 2/11 and 9/11, the combined
weights 19/88 and 69/88 (about 0.2159 and 0.7841); the allocation gives
row 0 tonnage 1900/11 (about 172.7), revenue 5700/11 (about 518.2) and
yield 3, row 1 tonnage 6900/11 (about 627.3), revenue 20700/11 (about
1881.8) and yield 3, and after the Normalizer the returned table is
[(173, 3, 518.18), (627, 3, 1881.82)]. -/
theorem c7_scenario_a :
    ((([⟨0, (100:ℚ), 2, 200⟩, ⟨1, 300, 3, 900⟩] : List Row).filter validB).map
      Row.t).sum = 400 ∧
    ((([⟨0, (100:ℚ), 2, 200⟩, ⟨1, 300, 3, 900⟩] : List Row).filter validB).map
      Row.r).sum = 1100 ∧
    (100:ℚ) / 400 = 1/4 ∧ (300:ℚ) / 400 = 3/4 ∧
    (200:ℚ) / 1100 = 2/11 ∧ (900:ℚ) / 1100 = 9/11 ∧
    combinedWeight 400 1100 ⟨0, 100, 2, 200⟩ = 19/88 ∧
    combinedWeight 400 1100 ⟨1, 300, 3, 900⟩ = 69/88 ∧
    |(19:ℚ)/88 - 2159/10000| ≤ 1/10000 ∧
    |(69:ℚ)/88 - 7841/10000| ≤ 1/10000 ∧
    allocRow 400 1100 800 2400 3 ⟨0, 100, 2, 200⟩ = ⟨0, 1900/11, 3, 5700/11⟩ ∧
    allocRow 400 1100 800 2400 3 ⟨1, 300, 3, 900⟩ = ⟨1, 6900/11, 3, 20700/11⟩ ∧
    |(1900:ℚ)/11 - 1727/10| ≤ 5/100 ∧ |(5700:ℚ)/11 - 5182/10| ≤ 5/100 ∧
    |(6900:ℚ)/11 - 6273/10| ≤ 5/100 ∧ |(20700:ℚ)/11 - 18818/10| ≤ 5/100 ∧
    allocate ⟨true, true, true, [⟨0, 100, 2, 200⟩, ⟨1, 300, 3, 900⟩]⟩ 800 2400 3
      = ⟨true, true, true, [⟨0, 173, 3, 25909/50⟩, ⟨1, 627, 3, 94091/50⟩]⟩ := by
  refine ⟨?_, ?_, ?_, ?_, ?_, ?_, ?_, ?_, ?_, ?_, ?_, ?_, ?_, ?_, ?_, ?_, ?_⟩
  · norm_num [List.filter, validB]
  · norm_num [List.filter, validB]
  · norm_num
  · norm_num
  · norm_num
  · norm_num
  · norm_num [combinedWeight]
  · norm_num [combinedWeight]
  · rw [abs_le]
    constructor <;> norm_num
  · rw [abs_le]
    constructor <;> norm_num
  · norm_num [allocRow, validB, combinedWeight]
  · norm_num [allocRow, validB, combinedWeight]
  · rw [abs_le]
    constructor <;> norm_num
  · rw [abs_le]
    constructor <;> norm_num
  · rw [abs_le]
    constructor <;> norm_num
  · rw [abs_le]
    constructor <;> norm_num
  · norm_num [allocate, clean, hasCols, normRow, validB, allocRow, combinedWeight,
      roundTo, rnearest, List.cons_ne_nil, List.filter]
